import Mathlib

/-!
Verification of the drift detection & analysis engine of the
`savannah-tech-drift-detection` repository.

The definitions below are a shallow embedding of the Python sources
`src/azure-drift/src/core/drift_analyzer.py`,
`src/azure-drift/src/core/snapshot.py` and
`src/azure-drift/src/core/drift_report.py`.
JSON-like Python values (the `Dict[str, Any]` configurations) are modelled by
the inductive type `Value`; Python dicts become association lists with unique
keys (insertion order preserved, as in Python), numbers are modelled as
integers (no claim touches floats), exceptions become `Except` values.
-/

set_option maxHeartbeats 1000000

namespace Drift

/-- JSON-like dynamic value: the shape of the `Dict[str, Any]` configuration
trees handled by `drift_analyzer.py`.  Python dicts are association lists in
insertion order; a well-formed value (`Value.wfB`) has no duplicate keys,
which every actual Python dict satisfies. -/
inductive Value where
  | null : Value
  | bool : Bool → Value
  | int : Int → Value
  | str : String → Value
  | list : List Value → Value
  | dict : List (String × Value) → Value
deriving Repr

mutual

/-- Structural equality of values, Python `==` on JSON-like data. -/
def Value.beq : Value → Value → Bool
  | .null, .null => true
  | .bool a, .bool b => a == b
  | .int a, .int b => a == b
  | .str a, .str b => a == b
  | .list a, .list b => Value.beqList a b
  | .dict a, .dict b => Value.beqDict a b
  | _, _ => false

/-- Elementwise `Value.beq` on lists. -/
def Value.beqList : List Value → List Value → Bool
  | [], [] => true
  | a :: as, b :: bs => Value.beq a b && Value.beqList as bs
  | _, _ => false

/-- Pairwise `Value.beq` on association lists (keys and values in order). -/
def Value.beqDict : List (String × Value) → List (String × Value) → Bool
  | [], [] => true
  | (k1, v1) :: as, (k2, v2) :: bs => k1 == k2 && Value.beq v1 v2 && Value.beqDict as bs
  | _, _ => false

end

mutual

theorem Value.beq_iff : (a b : Value) → (Value.beq a b = true ↔ a = b)
  | .null, b => by cases b <;> simp [Value.beq]
  | .bool x, b => by cases b <;> simp [Value.beq]
  | .int x, b => by cases b <;> simp [Value.beq]
  | .str x, b => by cases b <;> simp [Value.beq]
  | .list xs, b => by
      cases b <;> simp [Value.beq]
      exact Value.beqList_iff xs _
  | .dict xs, b => by
      cases b <;> simp [Value.beq]
      exact Value.beqDict_iff xs _

theorem Value.beqList_iff : (la lb : List Value) → (Value.beqList la lb = true ↔ la = lb)
  | [], [] => by simp [Value.beqList]
  | [], _ :: _ => by simp [Value.beqList]
  | _ :: _, [] => by simp [Value.beqList]
  | a :: as, b :: bs => by
      simp [Value.beqList, Value.beq_iff a b, Value.beqList_iff as bs]

theorem Value.beqDict_iff : (da db : List (String × Value)) → (Value.beqDict da db = true ↔ da = db)
  | [], [] => by simp [Value.beqDict]
  | [], _ :: _ => by simp [Value.beqDict]
  | _ :: _, [] => by simp [Value.beqDict]
  | (k1, v1) :: as, (k2, v2) :: bs => by
      simp [Value.beqDict, Value.beq_iff v1 v2, Value.beqDict_iff as bs, and_assoc]

end

instance : DecidableEq Value := fun a b =>
  if h : Value.beq a b = true then .isTrue ((Value.beq_iff a b).mp h)
  else .isFalse (fun he => h ((Value.beq_iff a b).mpr he))

/-- First-occurrence association-list lookup: Python `d[k]` / `d.get(k)`. -/
def lookupKey : List (String × Value) → String → Option Value
  | [], _ => none
  | (k', v) :: rest, k => if k' = k then some v else lookupKey rest k

/-- Key-list without duplicates (Python dict keys are unique). -/
def keysNodup : List (String × Value) → Bool
  | [] => true
  | (k, _) :: rest => !(rest.any (fun kv => kv.1 == k)) && keysNodup rest

mutual

/-- Duplicate-free keys at every dict node, recursively.  Every value built
from actual Python dicts satisfies this (Python dict keys are unique). -/
def Value.wfB : Value → Bool
  | .null => true
  | .bool _ => true
  | .int _ => true
  | .str _ => true
  | .list l => Value.wfList l
  | .dict d => keysNodup d && Value.wfDict d

/-- `Value.wfB` on every element of a list. -/
def Value.wfList : List Value → Bool
  | [] => true
  | v :: rest => v.wfB && Value.wfList rest

/-- `Value.wfB` on every value of an association list. -/
def Value.wfDict : List (String × Value) → Bool
  | [] => true
  | (_, v) :: rest => v.wfB && Value.wfDict rest

end

/-- One step of a DeepDiff tree path: a dict key or a sequence index. -/
inductive PathElem where
  | key : String → PathElem
  | idx : Nat → PathElem
deriving DecidableEq, Repr

/-- DeepDiff's textual rendering of a path, e.g. `root['a'][0]`. -/
def pathStr (p : List PathElem) : String :=
  "root" ++ String.join (p.map (fun e =>
    match e with
    | .key k => "['" ++ k ++ "']"
    | .idx i => "[" ++ toString i ++ "]"))

/-- `DriftAnalyzer.__init__` (drift_analyzer.py lines 47-51): the
`ignored_paths` excluded from every comparison. -/
def ignoredPaths : List String :=
  ["root['timestamp']", "root['id']", "root['metadata']"]

/-- The DeepDiff change categories that occur on JSON-like data. -/
inductive DiffCat where
  | valuesChanged
  | typeChanges
  | dictItemAdded
  | dictItemRemoved
  | iterItemAdded
  | iterItemRemoved
deriving DecidableEq, Repr

/-- One reported difference: category, path, old and new value
(`verbose_level=2` reports the values for added/removed items). -/
structure DiffEntry where
  cat : DiffCat
  path : List PathElem
  old : Option Value
  new : Option Value
deriving DecidableEq, Repr

/-- Elements of `l2` that occur (by deep equality) nowhere in `l1`, keeping
their index in `l2`.  Models DeepDiff `ignore_order=True` sequence
comparison, which hashes elements and compares the hash sets: an element
present on both sides matches regardless of position, and (without
`report_repetition`) repetition counts are ignored.  DeepDiff's pairing of
*similar* unequal elements is a heuristic the spec itself flags as
ambiguous (spec §9); no claim depends on it, and unmatched elements are
reported whole. -/
def iterOnly (l1 l2 : List Value) : List (Nat × Value) :=
  (l2.enum).filter (fun iv => !(l1.contains iv.2))

/-- Keys of the current dict `d2` absent from the previous dict `d1` are
`dictionary_item_added`; excluded paths are skipped. -/
def diffAdded (path : List PathElem) (d1 : List (String × Value))
    (d2 : List (String × Value)) : List DiffEntry :=
  d2.foldr (fun kv acc =>
    (if pathStr (path ++ [.key kv.1]) ∈ ignoredPaths then []
     else
       match lookupKey d1 kv.1 with
       | some _ => []
       | none => [⟨.dictItemAdded, path ++ [.key kv.1], none, some kv.2⟩]) ++ acc) []

mutual

/-- The DeepDiff comparison used by `DriftAnalyzer.detect_drift`
(drift_analyzer.py lines 82-88): `DeepDiff(previous, current,
ignore_order=True, exclude_paths=self.ignored_paths, verbose_level=2)`.
`t1` is the previous value, `t2` the current one.  For two dicts the key
sets are compared and common keys recurse; for two sequences the
order-insensitive comparison of `iterOnly` applies; equal scalars produce
nothing, unequal scalars of the same type produce `values_changed`, and
values of different types produce `type_changes`.  Paths listed in
`exclude_paths` are skipped entirely (handled where child paths are
formed, in `diffDict` / `diffAdded`; the root path itself is checked in
`deepDiff`). -/
def diffV (path : List PathElem) : Value → Value → List DiffEntry
  | .dict d1, .dict d2 => diffDict path d2 d1 ++ diffAdded path d1 d2
  | .list l1, .list l2 =>
      ((iterOnly l2 l1).map (fun iv =>
        ⟨.iterItemRemoved, path ++ [.idx iv.1], some iv.2, none⟩))
      ++ ((iterOnly l1 l2).map (fun iv =>
        ⟨.iterItemAdded, path ++ [.idx iv.1], none, some iv.2⟩))
  | .null, .null => []
  | .bool a, .bool b =>
      if a = b then [] else [⟨.valuesChanged, path, some (.bool a), some (.bool b)⟩]
  | .int a, .int b =>
      if a = b then [] else [⟨.valuesChanged, path, some (.int a), some (.int b)⟩]
  | .str a, .str b =>
      if a = b then [] else [⟨.valuesChanged, path, some (.str a), some (.str b)⟩]
  | t1, t2 => [⟨.typeChanges, path, some t1, some t2⟩]

/-- Walk the previous dict `d1`: keys absent from the current dict `d2` are
`dictionary_item_removed`, common keys recurse; excluded paths are
skipped. -/
def diffDict (path : List PathElem) (d2 : List (String × Value)) :
    List (String × Value) → List DiffEntry
  | [] => []
  | (k, v1) :: rest =>
      (if pathStr (path ++ [.key k]) ∈ ignoredPaths then []
       else
         match lookupKey d2 k with
         | some v2 => diffV (path ++ [.key k]) v1 v2
         | none => [⟨.dictItemRemoved, path ++ [.key k], some v1, none⟩])
      ++ diffDict path d2 rest

end

/-- `DeepDiff(previous, current, ignore_order=True,
exclude_paths=ignored_paths, verbose_level=2)` as the flat list of reported
differences (Python groups them by category; only membership and counts
matter to the claims). -/
def deepDiff (prev cur : Value) : List DiffEntry :=
  if pathStr [] ∈ ignoredPaths then [] else diffV [] prev cur

/-- One change record built by `detect_drift` (drift_analyzer.py lines
101-124). -/
structure Change where
  property : String
  old_value : Option Value
  new_value : Option Value
  change_type : String
deriving DecidableEq, Repr

/-- Python `str.replace`, fuelled so the recursion is structural (the fuel
is the character count, which bounds the number of steps since every step
consumes at least one character): scan left to right, replace each
non-overlapping occurrence of `pat` by `rep`.  Only called with non-empty
patterns. -/
def replaceAllF (pat rep : List Char) : Nat → List Char → List Char
  | _, [] => []
  | 0, l => l
  | fuel + 1, x :: xs =>
      if pat ≠ [] ∧ pat.isPrefixOf (x :: xs)
      then rep ++ replaceAllF pat rep fuel ((x :: xs).drop pat.length)
      else x :: replaceAllF pat rep fuel xs

/-- Python `s.replace(pat, rep)` on strings (every occurrence replaced). -/
def strReplace (s pat rep : String) : String :=
  ⟨replaceAllF pat.data rep.data s.data.length s.data⟩

/-- drift_analyzer.py line 101: `path.replace("root['", "").replace("']", "")`
(both `str.replace` calls replace every occurrence). -/
def propOf (p : List PathElem) : String :=
  strReplace (strReplace (pathStr p) "root['" "") "']" ""

/-- drift_analyzer.py lines 97-124: each reported difference of the three
dictionary-level categories becomes a change record; every other DeepDiff
category (`type_changes`, `iterable_item_added`, `iterable_item_removed`,
...) matches none of the three `if`/`elif` branches and is silently
dropped. -/
def processChanges (diff : List DiffEntry) : List Change :=
  diff.foldr (fun e acc =>
    (match e.cat with
     | .valuesChanged => [⟨propOf e.path, e.old, e.new, "modified"⟩]
     | .dictItemAdded => [⟨propOf e.path, none, e.new, "added"⟩]
     | .dictItemRemoved => [⟨propOf e.path, e.old, none, "removed"⟩]
     | _ => []) ++ acc) []

/-- The dictionary returned by `detect_drift`: `has_drift` is always
present; `changes` is present on the success paths only; `error` is present
on the exception path only (`none` models an absent key). -/
structure DriftResult where
  has_drift : Bool
  changes : Option (List Change)
  error : Option String
deriving DecidableEq, Repr

/-- `DriftAnalyzer.detect_drift` (drift_analyzer.py lines 80-135) given the
outcome of the DeepDiff comparison: the `try` body on `Except.ok`, the
`except Exception` handler on `Except.error` — which returns
`{"has_drift": False, "error": str(e)}` (line 132-135), with no `changes`
key. -/
def detectDriftCore (cmp : Except String (List DiffEntry)) : DriftResult :=
  match cmp with
  | .error e => ⟨false, none, some e⟩
  | .ok diff =>
      if diff.isEmpty then ⟨false, some [], none⟩
      else ⟨true, some (processChanges diff), none⟩

/-- `DriftAnalyzer.detect_drift(current_config, previous_config)` on inputs
for which the comparison itself raises no exception (DeepDiff is total on
JSON-like data); note the argument swap at line 82-84:
`DeepDiff(previous_config, current_config, ...)`. -/
def detectDrift (currentConfig previousConfig : Value) : DriftResult :=
  detectDriftCore (.ok (deepDiff previousConfig currentConfig))

/-- drift_analyzer.py lines 357-364: `high_severity_props`. -/
def highSeverityProps : List String :=
  ["security", "encryption", "authentication", "authorization", "firewall",
   "network_security"]

/-- drift_analyzer.py lines 367-373: `medium_severity_props`. -/
def mediumSeverityProps : List String :=
  ["size", "capacity", "performance", "scaling", "replication"]

/-- Substring search over character lists: `pat` occurs contiguously in
`l`. -/
def hasSubstr (pat : List Char) : List Char → Bool
  | [] => pat.isEmpty
  | x :: xs => pat.isPrefixOf (x :: xs) || hasSubstr pat xs

/-- Python's substring test `pat in hay`. -/
def containsSub (hay pat : String) : Bool :=
  hasSubstr pat.data hay.data

/-- Python `s.split('/')` (single-character separator, empty parts kept). -/
def splitOnChar (c : Char) : List Char → List (List Char)
  | [] => [[]]
  | x :: xs =>
      match splitOnChar c xs with
      | [] => [[]]
      | y :: ys => if x = c then [] :: y :: ys else (x :: y) :: ys

/-- Python `s.split('/')` on strings. -/
def splitSlash (s : String) : List String :=
  (splitOnChar '/' s.data).map (fun l => ⟨l⟩)

/-- Python `s.endswith(suffix)`. -/
def strEndsWith (s suffix : String) : Bool :=
  suffix.data.isSuffixOf s.data

/-- `DriftAnalyzer._assess_change_severity` (drift_analyzer.py lines
337-385), as a function of `change["property"]`: lower-case the property
path, then the first matching tier in high → medium → low order wins. -/
def assessChangeSeverity (property : String) : String :=
  let property_path := property.toLower
  if highSeverityProps.any (fun prop => containsSub property_path prop) then "high"
  else if mediumSeverityProps.any (fun prop => containsSub property_path prop) then "medium"
  else "low"

/-- The severity rule in the words of the spec (§4.2) and of the claim:
High if the lower-cased path contains any of security, encryption,
authentication, authorization, firewall, network-security; else Medium if
it contains any of size, capacity, performance, scaling, replication; else
Low — first matching tier wins.  (Spelled from the spec, to be compared
with `assessChangeSeverity` above, which is spelled from the source.) -/
def specSeverity (property : String) : String :=
  let p := property.toLower
  if ["security", "encryption", "authentication", "authorization", "firewall",
      "network-security"].any (fun w => containsSub p w) then "high"
  else if ["size", "capacity", "performance", "scaling", "replication"].any
      (fun w => containsSub p w) then "medium"
  else "low"

/-- The dictionary returned by `analyze_resource_drift` (drift_analyzer.py
lines 160-175): the full record on success, or `{"resource_id", "error"}`
from the `except` handler (lines 170-175) — `none` models an absent key. -/
structure ResourceDriftOut where
  resource_id : Value
  resource_type : Option String
  has_drift : Option Bool
  changes : Option (List Change)
  timestamp : Option String
  error : Option String
deriving DecidableEq, Repr

/-- `DriftAnalyzer.analyze_resource_drift` (drift_analyzer.py lines
137-175).  `now` stands for `datetime.utcnow().isoformat()`.  The `try`
body first runs `detect_drift`, then builds the result dict, whose
`resource_type` entry evaluates `resource_id.split('/')[6]` (line 165):
this raises `AttributeError` when the id is not a string and `IndexError`
when the id has fewer than seven `/`-separated parts, and either exception
lands in the `except` handler. -/
def analyzeResourceDrift (now : String) (rid : Value) (currentConfig previousConfig : Value) :
    ResourceDriftOut :=
  let dr := detectDrift currentConfig previousConfig
  match rid with
  | .str s =>
      match (splitSlash s).get? 6 with
      | some t =>
          ⟨rid, some t, some dr.has_drift, some (dr.changes.getD []), some now, none⟩
      | none => ⟨rid, none, none, none, none, some "IndexError: list index out of range"⟩
  | _ => ⟨rid, none, none, none, none, some "AttributeError: split"⟩

/-- A snapshot as consumed by `analyze_snapshot_drift`: its `id` entry and
its `resources` entry, a map from resource type to the list of resource
dicts.  (The claims quantify over snapshots that have both keys; each
resource stays a raw `Value`.) -/
structure SnapshotIn where
  sid : Value
  resources : List (String × List Value)
deriving DecidableEq, Repr

/-- First-occurrence lookup in the `resources` map:
`snapshot["resources"].get(resource_type, {})` returns `none` here and the
empty default there (iterating the `{}` default yields nothing). -/
def lookupBucket : List (String × List Value) → String → Option (List Value)
  | [], _ => none
  | (k', v) :: rest, k => if k' = k then some v else lookupBucket rest k

/-- `resource["id"]`: raises `KeyError` when the key is missing and
`TypeError` when the resource is not a dict. -/
def getRid (r : Value) : Except String Value :=
  match r with
  | .dict d =>
      match lookupKey d "id" with
      | some v => .ok v
      | none => .error "KeyError: id"
  | _ => .error "TypeError: not a dict"

/-- `next((r for r in previous_resources if r["id"] == resource_id), None)`
(drift_analyzer.py lines 218-221): scans in order, evaluating `r["id"]`
lazily, and stops at the first match. -/
def findPrevById (rid : Value) : List Value → Except String (Option Value)
  | [] => .ok none
  | r :: rest => do
      let rv ← getRid r
      if rv = rid then pure (some r) else findPrevById rid rest

/-- `any(r["id"] == resource_id for r in current_resources)`
(drift_analyzer.py line 253). -/
def anyById (rid : Value) : List Value → Except String Bool
  | [] => .ok false
  | r :: rest => do
      let rv ← getRid r
      if rv = rid then pure true else anyById rid rest

/-- drift_analyzer.py lines 216-245, one resource of the current snapshot:
if a previous resource with the same id exists in the same-type bucket,
run `analyze_resource_drift` and keep the result when
`drift["has_drift"]` is true (a `KeyError` when `analyze_resource_drift`
returned its error record, which has no `has_drift` key); otherwise
synthesize the `added` ResourceDrift (lines 234-245) with the whole
resource as `new_value` and the bucket key as `resource_type`. -/
def curResourceDrifts (now : String) (t : String) (prevList : List Value) (r : Value) :
    Except String (List ResourceDriftOut) := do
  let rid ← getRid r
  let found ← findPrevById rid prevList
  match found with
  | some pr =>
      let drift := analyzeResourceDrift now rid r pr
      match drift.has_drift with
      | some b => pure (if b then [drift] else [])
      | none => .error "KeyError: has_drift"
  | none =>
      pure [⟨rid, some t, some true,
             some [⟨"resource", none, some r, "added"⟩], some now, none⟩]

/-- The inner `for resource in resources` loop of the current pass. -/
def curPassBucket (now : String) (t : String) (prevList : List Value) :
    List Value → Except String (List ResourceDriftOut)
  | [] => .ok []
  | r :: rest => do
      let a ← curResourceDrifts now t prevList r
      let b ← curPassBucket now t prevList rest
      pure (a ++ b)

/-- drift_analyzer.py lines 212-245: `for resource_type, resources in
current_snapshot["resources"].items()`. -/
def curPass (now : String) (prevRes : List (String × List Value)) :
    List (String × List Value) → Except String (List ResourceDriftOut)
  | [] => .ok []
  | (t, rs) :: rest => do
      let a ← curPassBucket now t ((lookupBucket prevRes t).getD []) rs
      let b ← curPass now prevRes rest
      pure (a ++ b)

/-- drift_analyzer.py lines 251-265, one resource of the previous snapshot:
when no current resource of the same type has its id, synthesize the
`removed` ResourceDrift with the whole resource as `old_value`. -/
def removedResourceDrifts (now : String) (t : String) (curList : List Value) (r : Value) :
    Except String (List ResourceDriftOut) := do
  let rid ← getRid r
  let found ← anyById rid curList
  pure (if found then []
        else [⟨rid, some t, some true,
               some [⟨"resource", some r, none, "removed"⟩], some now, none⟩])

/-- The inner `for resource in resources` loop of the removed pass. -/
def removedPassBucket (now : String) (t : String) (curList : List Value) :
    List Value → Except String (List ResourceDriftOut)
  | [] => .ok []
  | r :: rest => do
      let a ← removedResourceDrifts now t curList r
      let b ← removedPassBucket now t curList rest
      pure (a ++ b)

/-- drift_analyzer.py lines 248-265: `for resource_type, resources in
previous_snapshot["resources"].items()`. -/
def removedPass (now : String) (curRes : List (String × List Value)) :
    List (String × List Value) → Except String (List ResourceDriftOut)
  | [] => .ok []
  | (t, rs) :: rest => do
      let a ← removedPassBucket now t ((lookupBucket curRes t).getD []) rs
      let b ← removedPass now curRes rest
      pure (a ++ b)

/-- The `drifts` list accumulated by `analyze_snapshot_drift`
(drift_analyzer.py lines 209-265): the current-snapshot pass followed by
the removed-resources pass. -/
def computeDrifts (now : String) (cur prev : SnapshotIn) :
    Except String (List ResourceDriftOut) := do
  let a ← curPass now prev.resources cur.resources
  let b ← removedPass now cur.resources prev.resources
  pure (a ++ b)

/-- What `analyze_snapshot_drift` returns: the assembled report dict of
lines 267-274, or the `{"error": str(e)}` dict of lines 277-279. -/
inductive SnapOut where
  | report (id timestamp : String) (snapshot_id previous_snapshot_id : Value)
      (has_drift : Bool) (drifts : List ResourceDriftOut)
  | errorOut (e : String)
deriving DecidableEq, Repr

/-- `DriftAnalyzer.analyze_snapshot_drift` (drift_analyzer.py lines
177-279).  After the two passes succeed, the return statement (line 268)
evaluates `uuid.uuid4()` — but drift_analyzer.py imports only `typing`,
`logging`, `datetime`, `json` and `deepdiff` (lines 21-25), never `uuid`,
so the name is undefined: the return raises `NameError`, and the blanket
`except Exception` handler (line 275) turns it into `{"error": str(e)}`.
The assembled report of lines 267-274 is therefore unreachable. -/
def analyzeSnapshotDrift (now : String) (cur prev : SnapshotIn) : SnapOut :=
  match computeDrifts now cur prev with
  | .ok _ => .errorOut "name uuid is not defined"
  | .error e => .errorOut e

/-!
The snapshot / report lifecycle managers.  `SnapshotManager` (snapshot.py)
and `DriftReportManager` (drift_report.py) implement the same store logic
over two directories; the relevant methods (`save_*` lines 25-43,
`get_latest_*` lines 62-78, `cleanup_old_*` lines 131-157 in both files)
are textually identical up to naming, so one model below covers both.
A store is the directory listing: one entry per file, in listing order,
with its name, its creation time `ctime` (seconds), and its JSON content.
`save_*` stamps `entity["timestamp"] = datetime.utcnow()` and writes the
file in the same instant, so for every stored entity the file ctime and
the entity's `timestamp` field denote the same moment; the managers key
`get_latest` and the cleanup sweep on `os.path.getctime`.
-/

/-- One file of a store directory. -/
structure StoredFile where
  name : String
  ctime : Int
  data : Value
deriving DecidableEq, Repr

/-- Python dict assignment `d[k] = v`: replace the value at an existing key
in place (position preserved), else append the new key at the end. -/
def setKey : List (String × Value) → String → Value → List (String × Value)
  | [], k, v => [(k, v)]
  | (k', v') :: rest, k, v =>
      if k' = k then (k', v) :: rest else (k', v') :: setKey rest k v

/-- `SnapshotManager.save_snapshot` (snapshot.py lines 25-43) and
`DriftReportManager.save_report` (drift_report.py lines 25-43): mutate the
caller's dict in place, overwriting `id` with a fresh UUID (`freshId`
models `str(uuid.uuid4())`) and `timestamp` with
`datetime.utcnow().isoformat()` (`now`), then persist exactly that dict
(`json.dump(snapshot_data, f)`) and return the fresh id.  The first
component is both the caller's dict after the call and the persisted
entity; the second is the returned id. -/
def saveEntity (freshId now : String) (entityData : List (String × Value)) :
    List (String × Value) × String :=
  let d1 := setKey entityData "id" (.str freshId)
  let d2 := setKey d1 "timestamp" (.str now)
  (d2, freshId)

/-- Python `max(files, key=getctime)`: scans left to right and replaces the
current best only on a strictly greater key, so the first file attaining
the maximal ctime wins. -/
def latestFile : List StoredFile → Option StoredFile
  | [] => none
  | f :: rest =>
      match latestFile rest with
      | none => some f
      | some m => if m.ctime > f.ctime then some m else some f

/-- `SnapshotManager.get_latest_snapshot` (snapshot.py lines 62-78) and
`DriftReportManager.get_latest_report` (drift_report.py lines 62-78):
list the `.json` files, return `None` when there are none, else load the
file with the maximal `getctime`.  (The reload step —
`load(latest_file.replace('.json', ''))`, which appends `.json` again —
re-reads the very same file: names are `f"{uuid4()}.json"` and a UUID
never contains `.json`, so the model returns the chosen entry itself.) -/
def getLatestEntity (store : List StoredFile) : Option StoredFile :=
  let snapshots := store.filter (fun f => strEndsWith f.name ".json")
  latestFile snapshots

/-- `SnapshotManager.cleanup_old_snapshots` (snapshot.py lines 131-157) and
`DriftReportManager.cleanup_old_reports` (drift_report.py lines 132-158):
`cutoff = now - days * 24 * 60 * 60`; every `.json` file with
`getctime < cutoff` is removed and counted.  Returns the surviving store
and the count. -/
def cleanupOldEntities (now days : Int) : List StoredFile → List StoredFile × Nat
  | [] => ([], 0)
  | f :: rest =>
      let r := cleanupOldEntities now days rest
      if strEndsWith f.name ".json" = true ∧ f.ctime < now - days * 24 * 60 * 60
      then (r.1, r.2 + 1)
      else (f :: r.1, r.2)

/-!  Well-formedness of snapshots for the snapshot-level pass: every
resource is a dict whose `id` entry is a string of at least seven
`/`-separated parts (the shape of Azure resource ids; with fewer parts
`analyze_resource_drift` line 165 raises `IndexError` and the pass
degenerates to the `KeyError` path). -/

/-- `resource["id"]` as a plain lookup (no exception). -/
def ridOf (r : Value) : Option Value :=
  match r with
  | .dict d => lookupKey d "id"
  | _ => none

/-- A resource dict with a string id of at least seven parts. -/
def resWF (r : Value) : Bool :=
  match ridOf r with
  | some (.str s) => decide (7 ≤ (splitSlash s).length)
  | _ => false

/-- `resWF` across a resources map. -/
def bucketsWF (rss : List (String × List Value)) : Bool :=
  rss.all (fun tb => tb.2.all resWF)

/-- `resWF` across a snapshot. -/
def snapWF (s : SnapshotIn) : Bool :=
  bucketsWF s.resources

/-- No resource of the map has the given id value. -/
def noRidIn (rid : Value) (rss : List (String × List Value)) : Prop :=
  ∀ tb ∈ rss, ∀ p ∈ tb.2, ridOf p ≠ some rid

/-- The ResourceDrift synthesized for an added resource `x` of type `t`
(drift_analyzer.py lines 234-245). -/
def addedFor (now : String) (rid : Value) (t : String) (x : Value) : ResourceDriftOut :=
  ⟨rid, some t, some true, some [⟨"resource", none, some x, "added"⟩], some now, none⟩

/-!  ## Concrete example inputs used by counterexamples and witnesses -/

/-- A small configuration map with unique keys at every level. -/
def exConfig : Value :=
  .dict [("size", .int 5), ("tags", .list [.str "a"]), ("nested", .dict [("x", .null)])]

/-- Previous configuration `{"a": 1}`. -/
def c3Prev : Value := .dict [("a", .int 1)]

/-- Current configuration `{"a": "1"}`: same key, value of another type. -/
def c3Cur : Value := .dict [("a", .str "1")]

/-- Current configuration `{"a": 2}`: a plain value modification. -/
def c3CurM : Value := .dict [("a", .int 2)]

/-- A full Azure resource id with eight `/`-separated non-empty parts. -/
def c4Rid : String :=
  "/subscriptions/s/resourceGroups/g/providers/Microsoft.Compute/virtualMachines/vm1"

/-- The entries of a resource whose `type` field is the full Azure type. -/
def c4Entries : List (String × Value) :=
  [("id", .str c4Rid), ("type", .str "Microsoft.Compute/virtualMachines")]

/-- The resource dict built from `c4Entries`. -/
def c4Res : Value := .dict c4Entries

/-- A resource dict whose id `/s/a/b/c/d/e/x` re-occurs across types. -/
def c6X : Value := .dict [("id", .str "/s/a/b/c/d/e/x")]

/-- Current snapshot: the resource `c6X` lives under type `typeA`. -/
def c6Cur : SnapshotIn := ⟨.str "B", [("typeA", [c6X])]⟩

/-- Previous snapshot: the same id lives under type `typeB`. -/
def c6Prev : SnapshotIn := ⟨.str "A", [("typeB", [c6X])]⟩

/-- A store directory with three entries; two share the maximal ctime. -/
def exStore : List StoredFile :=
  [⟨"a.json", 5, .null⟩, ⟨"b.json", 9, .null⟩, ⟨"c.json", 9, .null⟩]

/-- A store for the retention sweep: with `now` at day 100 and a 30-day
threshold, the first entry is 31 days old, the second 29, the third
exactly 30. -/
def exSweepStore : List StoredFile :=
  [⟨"a.json", 86400 * 69, .null⟩, ⟨"b.json", 86400 * 71, .null⟩,
   ⟨"c.json", 86400 * 70, .null⟩]

/-- A caller-built entity dict with a stale id and an extra field. -/
def exEntity : List (String × Value) :=
  [("id", .str "old"), ("x", .int 3)]

/-!  ## Helper lemmas -/

theorem lookupKey_ne_none_of_mem {d : List (String × Value)} {k : String} {v : Value}
    (h : (k, v) ∈ d) : lookupKey d k ≠ none := by
  induction d with
  | nil => simp at h
  | cons hd tl ih =>
      obtain ⟨k', v'⟩ := hd
      rcases List.mem_cons.mp h with h1 | h2
      · rw [Prod.mk.injEq] at h1
        simp [lookupKey, h1.1]
      · by_cases hk : k' = k
        · simp [lookupKey, hk]
        · simpa [lookupKey, hk] using ih h2

theorem lookupKey_eq_of_mem_nodup {d : List (String × Value)} {k : String} {v : Value}
    (hnd : keysNodup d = true) (h : (k, v) ∈ d) : lookupKey d k = some v := by
  induction d with
  | nil => simp at h
  | cons hd tl ih =>
      obtain ⟨k', v'⟩ := hd
      have hnd' : (!(tl.any (fun kv => kv.1 == k'))) = true ∧ keysNodup tl = true := by
        simpa [keysNodup, Bool.and_eq_true] using hnd
      rcases List.mem_cons.mp h with h1 | h2
      · rw [Prod.mk.injEq] at h1
        simp [lookupKey, h1.1, h1.2]
      · have hk : k' ≠ k := by
          intro he
          have : tl.any (fun kv => kv.1 == k') = true :=
            List.any_eq_true.mpr ⟨(k, v), h2, by simp [he]⟩
          simp [this] at hnd'
        simpa [lookupKey, hk] using ih hnd'.2 h2

theorem wfDict_mem {d : List (String × Value)} (h : Value.wfDict d = true) :
    ∀ kv ∈ d, Value.wfB kv.2 = true := by
  induction d with
  | nil => simp
  | cons hd tl ih =>
      obtain ⟨k', v'⟩ := hd
      have h' : Value.wfB v' = true ∧ Value.wfDict tl = true := by
        simpa [Value.wfDict, Bool.and_eq_true] using h
      intro kv hkv
      rcases List.mem_cons.mp hkv with h1 | h2
      · simpa [h1] using h'.1
      · exact ih h'.2 kv h2

theorem iterOnly_self (l : List Value) : iterOnly l l = [] := by
  refine List.filter_eq_nil_iff.mpr ?_
  intro iv hiv
  have h2 : iv.2 ∈ l := by
    have := List.mem_map_of_mem Prod.snd hiv
    simpa [List.enum_map_snd] using this
  simpa using h2

theorem diffAdded_eq_nil {path : List PathElem} {d1 d2 : List (String × Value)}
    (h : ∀ kv ∈ d2, lookupKey d1 kv.1 ≠ none) : diffAdded path d1 d2 = [] := by
  induction d2 with
  | nil => simp [diffAdded]
  | cons hd tl ih =>
      have hhd := h hd (by simp)
      have htl : ∀ kv ∈ tl, lookupKey d1 kv.1 ≠ none := fun kv hkv => h kv (by simp [hkv])
      rcases hlk : lookupKey d1 hd.1 with _ | w
      · exact absurd hlk hhd
      · simp only [diffAdded, List.foldr_cons] at *
        rw [ih htl, hlk]
        split <;> simp

theorem diffDict_eq_nil {path : List PathElem} {d : List (String × Value)} :
    ∀ l : List (String × Value), (∀ kv ∈ l, lookupKey d kv.1 = some kv.2) →
    (∀ kv ∈ l, ∀ p, diffV p kv.2 kv.2 = []) → diffDict path d l = [] := by
  intro l
  induction l with
  | nil => intro _ _; simp [diffDict]
  | cons hd tl ih =>
      intro hlk hrec
      obtain ⟨k, v⟩ := hd
      have h1 : lookupKey d k = some v := hlk (k, v) (by simp)
      have h2 : ∀ p, diffV p v v = [] := hrec (k, v) (by simp)
      simp only [diffDict, h1, h2]
      rw [ih (fun kv hkv => hlk kv (by simp [hkv])) (fun kv hkv => hrec kv (by simp [hkv]))]
      split <;> simp

theorem sizeOf_pos (v : Value) : 0 < sizeOf v := by
  cases v <;> simp_arith

theorem diffV_self_n : ∀ (n : Nat) (v : Value), sizeOf v ≤ n → v.wfB = true →
    ∀ path, diffV path v v = [] := by
  intro n
  induction n with
  | zero =>
      intro v hv _ _
      exact absurd hv (by simpa using (sizeOf_pos v).ne')
  | succ n ih =>
      intro v hv hwf path
      match v with
      | .null | .bool _ | .int _ | .str _ => simp [diffV]
      | .list l => simp [diffV, iterOnly_self]
      | .dict d =>
          have hnd : keysNodup d = true ∧ Value.wfDict d = true := by
            simpa [Value.wfB, Bool.and_eq_true] using hwf
          have hsz : ∀ kv ∈ d, sizeOf kv.2 ≤ n := by
            intro kv hkv
            have h1 : sizeOf kv < sizeOf d := List.sizeOf_lt_of_mem hkv
            have h2 : sizeOf kv.2 < sizeOf kv := by
              obtain ⟨a, b⟩ := kv
              simp_arith
            have h3 : sizeOf (Value.dict d) = 1 + sizeOf d := by simp_arith
            omega
          have hlk : ∀ kv ∈ d, lookupKey d kv.1 = some kv.2 := by
            intro kv hkv
            obtain ⟨a, b⟩ := kv
            exact lookupKey_eq_of_mem_nodup hnd.1 hkv
          have hrec : ∀ kv ∈ d, ∀ p, diffV p kv.2 kv.2 = [] := by
            intro kv hkv p
            exact ih kv.2 (hsz kv hkv) (wfDict_mem hnd.2 kv hkv) p
          have ha : diffAdded path d d = [] :=
            diffAdded_eq_nil (fun kv hkv => by
              obtain ⟨a, b⟩ := kv
              exact lookupKey_ne_none_of_mem hkv)
          simp [diffV, diffDict_eq_nil d hlk hrec, ha]

theorem diffV_self (v : Value) (h : v.wfB = true) (path : List PathElem) :
    diffV path v v = [] :=
  diffV_self_n (sizeOf v) v le_rfl h path

theorem deepDiff_self (v : Value) (h : v.wfB = true) : deepDiff v v = [] := by
  unfold deepDiff
  rw [if_neg (by decide)]
  exact diffV_self v h []

/-!  ## Claim theorems -/

/-- C1: the claim says a failing structural comparison is surfaced to the
caller as an error and never reported with `has_drift = false`; but
drift_analyzer.py lines 130-135 catch every exception raised during the
comparison and return `{"has_drift": False, "error": str(e)}` — the
failure is reported as a no-drift result for every raised exception `e`
(the spec itself flags this pattern as the defect to avoid, §7/§9). -/
theorem detect_drift_swallows_comparison_error (e : String) :
    detectDriftCore (.error e)
      = { has_drift := false, changes := none, error := some e } := rfl

/-- C2: `analyze_snapshot_drift` never returns the assembled DriftReport:
the return statement (drift_analyzer.py line 268) evaluates `uuid.uuid4()`
although `uuid` is never imported in drift_analyzer.py, so every call that
reaches the assembly raises `NameError` and the `except` handler yields
`{"error": str(e)}` instead — concretely so for two well-formed snapshots
with ids `snap-a` / `snap-b`. -/
theorem analyze_snapshot_drift_never_report :
    (∀ (now : String) (cur prev : SnapshotIn) (i ts : String) (sid psid : Value)
        (hd : Bool) (ds : List ResourceDriftOut),
        analyzeSnapshotDrift now cur prev ≠ .report i ts sid psid hd ds)
    ∧ analyzeSnapshotDrift "2024-01-01T00:00:00" ⟨.str "snap-b", []⟩ ⟨.str "snap-a", []⟩
        = .errorOut "name uuid is not defined" := by
  constructor
  · intro now cur prev i ts sid psid hd ds
    cases h : computeDrifts now cur prev <;> simp [analyzeSnapshotDrift, h]
  · rfl

/-- C3 counterexample: for current `{"a": "1"}` against previous
`{"a": 1}` the comparison reports a `type_changes` difference, which the
change-processing loop of `detect_drift` does not extract, so the result
has `has_drift = true` together with an empty changes list — refuting
`has_drift = (changes.length > 0)`. -/
theorem detect_drift_has_drift_with_empty_changes :
    detectDrift c3Cur c3Prev
        = { has_drift := true, changes := some [], error := none }
    ∧ ¬(((detectDrift c3Cur c3Prev).changes.getD []).length > 0) := by
  exact ⟨by decide, by decide⟩

/-- C3 (amended): `has_drift` is true exactly when the comparison reports
at least one difference, and a non-empty changes list forces
`has_drift = true`; but only the three dictionary-level categories are
extracted into `changes`, so `has_drift = true` can coexist with an empty
changes list (and on the exception path `has_drift` is false with no
changes key at all). -/
theorem detect_drift_has_drift_amended (cur prev : Value) :
    ((detectDrift cur prev).has_drift = true ↔ deepDiff prev cur ≠ [])
    ∧ (∀ cs, (detectDrift cur prev).changes = some cs → cs ≠ [] →
        (detectDrift cur prev).has_drift = true) := by
  unfold detectDrift detectDriftCore
  rcases h : deepDiff prev cur with _ | ⟨d, ds⟩ <;> simp

/-- Witness for the amended C3: a plain value modification yields
`has_drift = true` via the second conjunct of the amended theorem. -/
theorem detect_drift_has_drift_amended_witness :
    (detectDrift c3CurM c3Prev).has_drift = true :=
  (detect_drift_has_drift_amended c3CurM c3Prev).2
    [⟨"a", some (.int 1), some (.int 2), "modified"⟩] (by decide) (by decide)

/-- C4 counterexample: for a resource whose `type` field is
`Microsoft.Compute/virtualMachines`, `analyze_resource_drift` stamps
`resource_type = "Microsoft.Compute"` — the seventh `/`-separated segment
of the id string (drift_analyzer.py line 165: `resource_id.split('/')[6]`)
— and not the value of the resource's `type` field, refuting the claim
that the type is derived from the `type` field rather than parsed
positionally from the id. -/
theorem analyze_resource_drift_positional_type :
    (analyzeResourceDrift "T0" (.str c4Rid) c4Res c4Res).resource_type
        = some "Microsoft.Compute"
    ∧ lookupKey c4Entries "type" = some (.str "Microsoft.Compute/virtualMachines")
    ∧ (analyzeResourceDrift "T0" (.str c4Rid) c4Res c4Res).resource_type
        ≠ some "Microsoft.Compute/virtualMachines" := by
  exact ⟨by decide, by decide, by decide⟩

/-- C4 (amended): for a string resource id, `analyze_resource_drift`
returns `resource_type` equal to the seventh `/`-separated segment of the
id (the resource's `type` field is never consulted), and stamps
`timestamp` with the analysis time exactly when that segment exists (with
fewer segments the indexing raises and the error record has no
timestamp). -/
theorem analyze_resource_drift_amended (now s : String) (cur prev : Value) :
    (analyzeResourceDrift now (.str s) cur prev).resource_type
        = (splitSlash s).get? 6
    ∧ (analyzeResourceDrift now (.str s) cur prev).timestamp
        = (if ((splitSlash s).get? 6).isSome then some now else none) := by
  cases h : (splitSlash s)[6]? <;>
    simp [analyzeResourceDrift, h, List.get?_eq_getElem?]

/-- C5: for every configuration map `A` (a Python dict, hence with unique
keys at every nesting level, which `Value.wfB` expresses), diffing `A`
against itself yields `has_drift = false` and an empty change list. -/
theorem detect_drift_self_no_drift (A : Value) (h : A.wfB = true) :
    detectDrift A A = { has_drift := false, changes := some [], error := none } := by
  unfold detectDrift detectDriftCore
  simp [deepDiff_self A h]

/-- Witness for C5 at a concrete three-field configuration map. -/
theorem detect_drift_self_no_drift_witness :
    Value.wfB exConfig = true
    ∧ detectDrift exConfig exConfig
        = { has_drift := false, changes := some [], error := none } :=
  ⟨by decide, detect_drift_self_no_drift exConfig (by decide)⟩

/-- C6 counterexample: the resource id `/s/a/b/c/d/e/x` occurs under type
`typeA` in the current snapshot and under type `typeB` in the previous
one; the current resource has no same-type match, so the current pass
emits its Added drift — but the removed pass emits a second ResourceDrift
with the very same resource id (a Removed one for the `typeB`
occurrence), so the drifts list holds two entries for that id, refuting
"exactly one ResourceDrift for that resource id". -/
theorem snapshot_drift_two_drifts_for_added_id :
    computeDrifts "T0" c6Cur c6Prev
      = .ok [addedFor "T0" (.str "/s/a/b/c/d/e/x") "typeA" c6X,
             ⟨.str "/s/a/b/c/d/e/x", some "typeB", some true,
              some [⟨"resource", some c6X, none, "removed"⟩], some "T0", none⟩]
    ∧ (match computeDrifts "T0" c6Cur c6Prev with
       | .ok ds => (ds.filter (fun d => decide (d.resource_id = .str "/s/a/b/c/d/e/x"))).length
       | .error _ => 0) = 2 :=
  ⟨rfl, rfl⟩

theorem hasSubstr_iff_infix (pat : List Char) : ∀ l, hasSubstr pat l = true ↔ pat <:+: l := by
  intro l
  induction l with
  | nil => simp [hasSubstr, List.isEmpty_iff, List.infix_nil]
  | cons x xs ih =>
      simp [hasSubstr, Bool.or_eq_true, List.isPrefixOf_iff_prefix, ih, List.infix_cons_iff]

theorem containsSub_mono {p w₁ w₂ : String} (hsub : w₂.data <:+: w₁.data)
    (h : containsSub p w₁ = true) : containsSub p w₂ = true := by
  rw [containsSub, hasSubstr_iff_infix] at h ⊢
  exact hsub.trans h

/-- C7: the severity classifier returns exactly the claimed tiers in the
claimed priority order.  The one textual difference — the source spells
the last high-severity keyword `network_security` (drift_analyzer.py line
363) while the claim spells it `network-security` — is unobservable: any
path containing either spelling contains `security`, so the two
high-tier predicates agree on every property path. -/
theorem assess_change_severity_spec (property : String) :
    assessChangeSeverity property = specSeverity property := by
  have hsuf1 : ("security".data) <:+: ("network_security".data) :=
    List.IsSuffix.isInfix ⟨"network_".data, by decide⟩
  have hsuf2 : ("security".data) <:+: ("network-security".data) :=
    List.IsSuffix.isInfix ⟨"network-".data, by decide⟩
  by_cases hsec : containsSub property.toLower "security" = true
  · simp [assessChangeSeverity, specSeverity, highSeverityProps, hsec]
  · have h1 : containsSub property.toLower "network_security" = false := by
      cases hx : containsSub property.toLower "network_security"
      · rfl
      · exact absurd (containsSub_mono hsuf1 hx) hsec
    have h2 : containsSub property.toLower "network-security" = false := by
      cases hx : containsSub property.toLower "network-security"
      · rfl
      · exact absurd (containsSub_mono hsuf2 hx) hsec
    have hsec' : containsSub property.toLower "security" = false := by
      simpa using hsec
    simp [assessChangeSeverity, specSeverity, highSeverityProps, mediumSeverityProps,
      hsec', h1, h2]

/-- C8: the retention sweep deletes exactly the stored `.json` entities
strictly older than `days` days (ages measured in seconds against `now`),
in particular an entity exactly `days` days old — `now - ctime =
days * 86400` — is retained; all other entities are left in place in
order, and the returned count is the number of deleted entities.
(snapshot.py lines 131-157 and drift_report.py lines 132-158; the sweep
keys on file creation time, which `save_*` stamps together with the
entity's `timestamp` field.) -/
theorem cleanup_old_entities_spec (now days : Int) (files : List StoredFile) :
    (cleanupOldEntities now days files).1
      = files.filter (fun f =>
          !(strEndsWith f.name ".json" && decide (now - f.ctime > days * 86400)))
    ∧ (cleanupOldEntities now days files).2
      = (files.filter (fun f =>
          strEndsWith f.name ".json" && decide (now - f.ctime > days * 86400))).length
    ∧ (∀ f ∈ files, strEndsWith f.name ".json" = true →
        now - f.ctime = days * 86400 → f ∈ (cleanupOldEntities now days files).1) := by
  induction files with
  | nil => exact ⟨rfl, rfl, by simp⟩
  | cons f rest ih =>
      obtain ⟨ih1, ih2, ih3⟩ := ih
      by_cases hc : strEndsWith f.name ".json" = true ∧ f.ctime < now - days * 24 * 60 * 60
      · have hb : (strEndsWith f.name ".json" && decide (now - f.ctime > days * 86400)) = true := by
          rcases hc with ⟨h1, h2⟩
          simp [h1]
          omega
        refine ⟨?_, ?_, ?_⟩
        · simp only [cleanupOldEntities]
          rw [if_pos hc, ih1, List.filter_cons]
          simp only [hb, Bool.not_true]
          simp
        · simp only [cleanupOldEntities]
          rw [if_pos hc, ih2, List.filter_cons]
          simp only [hb]
          simp
        · intro g hg hjson hage
          rcases List.mem_cons.mp hg with rfl | hg'
          · exfalso
            rcases hc with ⟨_, h2⟩
            omega
          · simpa [cleanupOldEntities, if_pos hc] using ih3 g hg' hjson hage
      · have hb : (strEndsWith f.name ".json" && decide (now - f.ctime > days * 86400)) = false := by
          by_cases h1 : strEndsWith f.name ".json" = true
          · have h2 : ¬ f.ctime < now - days * 24 * 60 * 60 := fun h => hc ⟨h1, h⟩
            simp [h1]
            omega
          · rw [Bool.not_eq_true] at h1
            simp [h1]
        refine ⟨?_, ?_, ?_⟩
        · simp only [cleanupOldEntities]
          rw [if_neg hc, List.filter_cons]
          simp only [hb, Bool.not_false]
          simp [ih1]
        · simp only [cleanupOldEntities]
          rw [if_neg hc, List.filter_cons]
          simp only [hb]
          simp [ih2]
        · intro g hg hjson hage
          rcases List.mem_cons.mp hg with rfl | hg'
          · simp [cleanupOldEntities, if_neg hc]
          · have := ih3 g hg' hjson hage
            simp [cleanupOldEntities, if_neg hc, this]

/-- Witness for C8 on a concrete store: the sweep keeps the 29-day-old and
the exactly-30-day-old entries, deletes the 31-day-old one, and returns
count 1. -/
theorem cleanup_old_entities_spec_witness :
    (cleanupOldEntities (86400 * 100) 30 exSweepStore).1
        = [⟨"b.json", 86400 * 71, .null⟩, ⟨"c.json", 86400 * 70, .null⟩]
    ∧ (cleanupOldEntities (86400 * 100) 30 exSweepStore).2 = 1
    ∧ (⟨"c.json", 86400 * 70, .null⟩ : StoredFile)
        ∈ (cleanupOldEntities (86400 * 100) 30 exSweepStore).1 := by
  refine ⟨by decide, by decide, ?_⟩
  exact (cleanup_old_entities_spec (86400 * 100) 30 exSweepStore).2.2
    ⟨"c.json", 86400 * 70, .null⟩ (by decide) (by decide) (by decide)

theorem latestFile_eq_none_iff (l : List StoredFile) : latestFile l = none ↔ l = [] := by
  cases l with
  | nil => simp [latestFile]
  | cons f r =>
      simp only [latestFile]
      cases latestFile r <;> simp
      split <;> simp

theorem latestFile_spec (l : List StoredFile) : ∀ e, latestFile l = some e →
    e ∈ l ∧ (∀ x ∈ l, x.ctime ≤ e.ctime)
    ∧ ∃ l₁ l₂, l = l₁ ++ e :: l₂ ∧ ∀ x ∈ l₁, x.ctime < e.ctime := by
  induction l with
  | nil => intro e he; simp [latestFile] at he
  | cons f r ih =>
      intro e he
      rcases hr : latestFile r with _ | m
      · have hrnil : r = [] := (latestFile_eq_none_iff r).mp hr
        subst hrnil
        have hef : e = f := by simpa [latestFile] using he.symm
        subst hef
        exact ⟨by simp, by simp, [], [], by simp, by simp⟩
      · simp only [latestFile, hr] at he
        obtain ⟨hm, hmax, r₁, r₂, hdec, hlt⟩ := ih m hr
        by_cases hgt : m.ctime > f.ctime
        · rw [if_pos hgt] at he
          obtain rfl : m = e := by simpa using he
          refine ⟨by simp [hm], ?_, f :: r₁, r₂, by simp [hdec], ?_⟩
          · intro x hx
            rcases List.mem_cons.mp hx with rfl | hx'
            · exact le_of_lt hgt
            · exact hmax x hx'
          · intro x hx
            rcases List.mem_cons.mp hx with rfl | hx'
            · exact hgt
            · exact hlt x hx'
        · rw [if_neg hgt] at he
          obtain rfl : f = e := by simpa using he
          refine ⟨by simp, ?_, [], r, by simp, by simp⟩
          intro x hx
          rcases List.mem_cons.mp hx with rfl | hx'
          · exact le_rfl
          · exact le_trans (hmax x hx') (not_lt.mp hgt)

/-- C9: `get_latest` returns absence (`None`) exactly on the empty store;
otherwise it returns a stored entity whose timestamp is maximal among all
stored entities, and among entities sharing the maximal timestamp the one
earliest in the store's own listing order wins (Python `max` keeps the
first maximal element) — the store-assigned tie-break.  (snapshot.py
lines 62-78 and drift_report.py lines 62-78; the managers key on
`getctime`, stamped together with the entity's `timestamp` field by
`save_*`.) -/
theorem get_latest_entity_spec (store : List StoredFile)
    (hjson : ∀ f ∈ store, strEndsWith f.name ".json" = true) :
    (getLatestEntity store = none ↔ store = [])
    ∧ ∀ e, getLatestEntity store = some e →
        e ∈ store ∧ (∀ x ∈ store, x.ctime ≤ e.ctime)
        ∧ ∃ l₁ l₂, store = l₁ ++ e :: l₂ ∧ ∀ x ∈ l₁, x.ctime < e.ctime := by
  have hf : store.filter (fun f => strEndsWith f.name ".json") = store :=
    List.filter_eq_self.mpr hjson
  unfold getLatestEntity
  rw [hf]
  exact ⟨latestFile_eq_none_iff store, latestFile_spec store⟩

/-- Witness for C9 on a concrete store: the entity returned for `exStore`
is the earlier of the two entries with maximal ctime 9, it is a member of
the store, and its ctime bounds every entry. -/
theorem get_latest_entity_spec_witness :
    getLatestEntity exStore = some ⟨"b.json", 9, .null⟩
    ∧ (⟨"b.json", 9, .null⟩ : StoredFile) ∈ exStore
    ∧ ∀ x ∈ exStore, x.ctime ≤ (9 : Int) := by
  have h := (get_latest_entity_spec exStore (by decide)).2 ⟨"b.json", 9, .null⟩ (by decide)
  exact ⟨by decide, h.1, fun x hx => h.2.1 x hx⟩

theorem lookupKey_setKey_self (d : List (String × Value)) (k : String) (v : Value) :
    lookupKey (setKey d k v) k = some v := by
  induction d with
  | nil => simp [setKey, lookupKey]
  | cons hd rest ih =>
      obtain ⟨k₀, v₀⟩ := hd
      by_cases h : k₀ = k <;> simp [setKey, lookupKey, h, ih]

theorem lookupKey_setKey_other (d : List (String × Value)) (k : String) (v : Value)
    (k' : String) (h : k ≠ k') : lookupKey (setKey d k v) k' = lookupKey d k' := by
  induction d with
  | nil => simp [setKey, lookupKey, h]
  | cons hd rest ih =>
      obtain ⟨k₀, v₀⟩ := hd
      by_cases h0 : k₀ = k
      · subst h0
        simp [setKey, lookupKey, h]
      · by_cases h1 : k₀ = k' <;> simp [setKey, lookupKey, h0, h1, ih, Ne.symm h]

/-- C10: `save_snapshot` / `save_report` mutate the caller's dict in place
(the model returns the mutated dict, which is also exactly what is
persisted by `json.dump`): any caller-supplied `id` is overwritten with
the fresh UUID, any caller-supplied `timestamp` with the save time, every
other key keeps its value, and the returned id equals the `id` field of
the persisted entity. -/
theorem save_entity_spec (freshId now : String) (d : List (String × Value)) :
    lookupKey (saveEntity freshId now d).1 "id" = some (.str freshId)
    ∧ lookupKey (saveEntity freshId now d).1 "timestamp" = some (.str now)
    ∧ (∀ k, k ≠ "id" → k ≠ "timestamp" →
        lookupKey (saveEntity freshId now d).1 k = lookupKey d k)
    ∧ (saveEntity freshId now d).2 = freshId
    ∧ lookupKey (saveEntity freshId now d).1 "id"
        = some (.str (saveEntity freshId now d).2) := by
  refine ⟨?_, ?_, ?_, rfl, ?_⟩
  · show lookupKey (setKey (setKey d "id" (.str freshId)) "timestamp" (.str now)) "id"
        = some (.str freshId)
    rw [lookupKey_setKey_other _ _ _ _ (by decide), lookupKey_setKey_self]
  · exact lookupKey_setKey_self _ _ _
  · intro k hki hkt
    show lookupKey (setKey (setKey d "id" (.str freshId)) "timestamp" (.str now)) k
        = lookupKey d k
    rw [lookupKey_setKey_other _ _ _ _ (fun h => hkt h.symm),
      lookupKey_setKey_other _ _ _ _ (fun h => hki h.symm)]
  · show lookupKey (setKey (setKey d "id" (.str freshId)) "timestamp" (.str now)) "id"
        = some (.str freshId)
    rw [lookupKey_setKey_other _ _ _ _ (by decide), lookupKey_setKey_self]

/-- Witness for C10 on a concrete entity dict: the stale id is overwritten,
the timestamp stamped, and the untouched field `x` keeps its value. -/
theorem save_entity_spec_witness :
    saveEntity "u1" "T1" exEntity
        = ([("id", .str "u1"), ("x", .int 3), ("timestamp", .str "T1")], "u1")
    ∧ lookupKey (saveEntity "u1" "T1" exEntity).1 "x" = lookupKey exEntity "x" := by
  exact ⟨by decide, (save_entity_spec "u1" "T1" exEntity).2.2.1 "x" (by decide) (by decide)⟩

/-!  ## The snapshot-level pass, resource by resource (for the amended C6) -/

theorem ok_bind {α β : Type} (x : α) (f : α → Except String β) :
    (Except.ok x >>= f) = f x := rfl

theorem pure_ok {α : Type} (x : α) : (pure x : Except String α) = .ok x := rfl

theorem resWF_spec {r : Value} (h : resWF r = true) :
    ∃ s : String, ridOf r = some (.str s) ∧ getRid r = .ok (.str s)
      ∧ 7 ≤ (splitSlash s).length := by
  cases r with
  | dict d =>
      simp only [resWF, ridOf] at h ⊢
      rcases hlk : lookupKey d "id" with _ | v
      · rw [hlk] at h
        simp at h
      · rw [hlk] at h
        cases v with
        | str s => exact ⟨s, rfl, by simp [getRid, hlk], by simpa using h⟩
        | null => simp at h
        | bool b => simp at h
        | int n => simp at h
        | list l => simp at h
        | dict dd => simp at h
  | null => simp [resWF, ridOf] at h
  | bool b => simp [resWF, ridOf] at h
  | int n => simp [resWF, ridOf] at h
  | str s => simp [resWF, ridOf] at h
  | list l => simp [resWF, ridOf] at h

theorem findPrevById_eq (rid : Value) : ∀ pl : List Value, pl.all resWF = true →
    findPrevById rid pl = .ok (pl.find? (fun p => decide (ridOf p = some rid))) := by
  intro pl
  induction pl with
  | nil => intro _; simp [findPrevById, List.find?]
  | cons r rest ih =>
      intro hall
      have hr : resWF r = true := (List.all_eq_true.mp hall) r (by simp)
      have hrest : rest.all resWF = true :=
        List.all_eq_true.mpr (fun x hx => (List.all_eq_true.mp hall) x (by simp [hx]))
      obtain ⟨s, hro, hgr, _⟩ := resWF_spec hr
      by_cases he : (Value.str s) = rid
      · rw [List.find?_cons_of_pos _ (by simp [hro, he])]
        simp [findPrevById, hgr, ok_bind, he, pure_ok]
      · rw [List.find?_cons_of_neg _ (by simp [hro, he])]
        simp [findPrevById, hgr, ok_bind, he, ih hrest, pure_ok]

theorem anyById_eq (rid : Value) : ∀ cl : List Value, cl.all resWF = true →
    anyById rid cl = .ok (cl.any (fun p => decide (ridOf p = some rid))) := by
  intro cl
  induction cl with
  | nil => intro _; simp [anyById]
  | cons r rest ih =>
      intro hall
      have hr : resWF r = true := (List.all_eq_true.mp hall) r (by simp)
      have hrest : rest.all resWF = true :=
        List.all_eq_true.mpr (fun x hx => (List.all_eq_true.mp hall) x (by simp [hx]))
      obtain ⟨s, hro, hgr, _⟩ := resWF_spec hr
      by_cases he : (Value.str s) = rid
      · simp [anyById, hgr, ok_bind, he, List.any_cons, hro, pure_ok]
      · simp [anyById, hgr, ok_bind, he, List.any_cons, hro, ih hrest, pure_ok]

theorem analyzeResourceDrift_wf (now : String) {s : String}
    (h7 : 7 ≤ (splitSlash s).length) (c p : Value) :
    ∃ t0 : String, analyzeResourceDrift now (.str s) c p
      = ⟨.str s, some t0, some (detectDrift c p).has_drift,
         some ((detectDrift c p).changes.getD []), some now, none⟩ := by
  have h6 : ∃ t0, (splitSlash s).get? 6 = some t0 := by
    rcases hg : (splitSlash s).get? 6 with _ | t0
    · have := List.get?_eq_none.mp hg
      omega
    · exact ⟨t0, rfl⟩
  obtain ⟨t0, hg⟩ := h6
  rw [List.get?_eq_getElem?] at hg
  exact ⟨t0, by simp [analyzeResourceDrift, hg]⟩

theorem curResourceDrifts_spec (now t : String) {r rv : Value} (hro : ridOf r = some rv)
    (hr : resWF r = true) {pl : List Value} (hpl : pl.all resWF = true) :
    ∃ ds, curResourceDrifts now t pl r = .ok ds
      ∧ (∀ d ∈ ds, d.resource_id = rv)
      ∧ ((∀ p ∈ pl, ridOf p ≠ some rv) → ds = [addedFor now rv t r]) := by
  obtain ⟨s, hro', hgr, h7⟩ := resWF_spec hr
  have hrv : rv = .str s := by
    rw [hro] at hro'
    exact (Option.some.injEq _ _).mp hro'.symm |>.symm
  subst hrv
  rcases hf : pl.find? (fun p => decide (ridOf p = some (Value.str s))) with _ | pr
  · refine ⟨[addedFor now (.str s) t r], ?_, ?_, fun _ => rfl⟩
    · simp [curResourceDrifts, hgr, ok_bind, findPrevById_eq _ pl hpl, hf, addedFor, pure_ok]
    · intro d hd
      simp [addedFor] at hd
      simp [hd]
  · obtain ⟨t0, hard⟩ := analyzeResourceDrift_wf now h7 r pr
    have hfound : pr ∈ pl ∧ ridOf pr = some (Value.str s) := by
      refine ⟨List.mem_of_find?_eq_some hf, ?_⟩
      have := List.find?_some hf
      simpa using this
    refine ⟨if (detectDrift r pr).has_drift then
        [⟨.str s, some t0, some (detectDrift r pr).has_drift,
          some ((detectDrift r pr).changes.getD []), some now, none⟩] else [], ?_, ?_, ?_⟩
    · simp only [curResourceDrifts, hgr, ok_bind, findPrevById_eq _ pl hpl, hf, hard]
      cases (detectDrift r pr).has_drift <;> rfl
    · intro d hd
      rcases hb : (detectDrift r pr).has_drift with _ | _ <;> rw [hb] at hd <;> simp at hd
      simp [hd]
    · intro habs
      exact absurd hfound.2 (habs pr hfound.1)

theorem curPassBucket_filter (now t : String) (rid0 : Value) :
    ∀ (rs : List Value) (pl : List Value),
    rs.all resWF = true → pl.all resWF = true →
    (∀ p ∈ pl, ridOf p ≠ some rid0) →
    ∃ ds, curPassBucket now t pl rs = .ok ds
      ∧ ds.filter (fun d => decide (d.resource_id = rid0))
          = (rs.filter (fun x => decide (ridOf x = some rid0))).map (addedFor now rid0 t) := by
  intro rs
  induction rs with
  | nil => intro pl _ _ _; exact ⟨[], rfl, by simp⟩
  | cons r rest ih =>
      intro pl hall hpl hplrid
      have hr : resWF r = true := (List.all_eq_true.mp hall) r (by simp)
      have hrest : rest.all resWF = true :=
        List.all_eq_true.mpr (fun x hx => (List.all_eq_true.mp hall) x (by simp [hx]))
      obtain ⟨s, hro, _, _⟩ := resWF_spec hr
      obtain ⟨ds₀, h0, hid, hadd⟩ := curResourceDrifts_spec now t hro hr hpl
      obtain ⟨ds₁, h1, hfil⟩ := ih pl hrest hpl hplrid
      refine ⟨ds₀ ++ ds₁, ?_, ?_⟩
      · simp [curPassBucket, h0, h1, ok_bind, pure_ok]
      · rw [List.filter_append, hfil, List.filter_cons]
        by_cases hc : ridOf r = some rid0
        · have hrv : Value.str s = rid0 := by
            rw [hro] at hc
            exact (Option.some.injEq _ _).mp hc
          have hds₀ : ds₀ = [addedFor now (.str s) t r] := by
            apply hadd
            intro p hp he
            exact hplrid p hp (by rw [← hrv]; exact he)
          rw [if_pos (by simp [hc])]
          rw [hds₀, hrv]
          simp [addedFor]
        · have hds₀ : ds₀.filter (fun d => decide (d.resource_id = rid0)) = [] := by
            refine List.filter_eq_nil_iff.mpr ?_
            intro d hd
            have hds := hid d hd
            simp only [hds, decide_eq_true_eq]
            intro he
            apply hc
            rw [hro, he]
          rw [if_neg (by simp [hc])]
          rw [hds₀]
          simp

theorem lookupBucket_mem : ∀ (rss : List (String × List Value)) (t : String)
    (l : List Value), lookupBucket rss t = some l → (t, l) ∈ rss := by
  intro rss
  induction rss with
  | nil => intro t l h; simp [lookupBucket] at h
  | cons hd rest ih =>
      intro t l h
      obtain ⟨k', v⟩ := hd
      by_cases hk : k' = t
      · subst hk
        rw [lookupBucket, if_pos rfl] at h
        obtain rfl : v = l := by simpa using h
        simp
      · rw [lookupBucket, if_neg hk] at h
        exact List.mem_cons_of_mem _ (ih t l h)

theorem bucketsWF_mem {rss : List (String × List Value)} (h : bucketsWF rss = true)
    {t : String} {l : List Value} (hm : (t, l) ∈ rss) : l.all resWF = true := by
  have := (List.all_eq_true.mp h) (t, l) hm
  simpa using this

theorem prevList_wf {prevRes : List (String × List Value)} (h : bucketsWF prevRes = true)
    (t : String) : ((lookupBucket prevRes t).getD []).all resWF = true := by
  rcases hl : lookupBucket prevRes t with _ | l
  · simp
  · simpa using bucketsWF_mem h (lookupBucket_mem prevRes t l hl)

theorem prevList_norid {prevRes : List (String × List Value)} {rid0 : Value}
    (h : noRidIn rid0 prevRes) (t : String) :
    ∀ p ∈ (lookupBucket prevRes t).getD [], ridOf p ≠ some rid0 := by
  rcases hl : lookupBucket prevRes t with _ | l
  · simp
  · intro p hp
    exact h (t, l) (lookupBucket_mem prevRes t l hl) p (by simpa using hp)

theorem curPass_filter (now : String) (rid0 : Value) :
    ∀ (bss : List (String × List Value)) (prevRes : List (String × List Value)),
    bucketsWF bss = true → bucketsWF prevRes = true → noRidIn rid0 prevRes →
    ∃ ds, curPass now prevRes bss = .ok ds
      ∧ ds.filter (fun d => decide (d.resource_id = rid0))
          = (bss.map (fun tb => (tb.2.filter (fun x => decide (ridOf x = some rid0))).map
              (addedFor now rid0 tb.1))).flatten := by
  intro bss
  induction bss with
  | nil => intro prevRes _ _ _; exact ⟨[], rfl, by simp⟩
  | cons hd rest ih =>
      intro prevRes hall hprev hnorid
      obtain ⟨t, rs⟩ := hd
      have hrs : rs.all resWF = true := bucketsWF_mem hall (List.mem_cons_self _ _)
      have hrest : bucketsWF rest = true := by
        refine List.all_eq_true.mpr (fun x hx => (List.all_eq_true.mp hall) x ?_)
        simp [hx]
      obtain ⟨ds₀, h0, hfil0⟩ := curPassBucket_filter now t rid0 rs
        ((lookupBucket prevRes t).getD []) hrs (prevList_wf hprev t) (prevList_norid hnorid t)
      obtain ⟨ds₁, h1, hfil1⟩ := ih prevRes hrest hprev hnorid
      refine ⟨ds₀ ++ ds₁, ?_, ?_⟩
      · simp [curPass, h0, h1, ok_bind, pure_ok]
      · rw [List.filter_append, hfil0, hfil1]
        simp

theorem removedResourceDrifts_spec (now t : String) {r rv : Value}
    (hro : ridOf r = some rv) (hr : resWF r = true) {cl : List Value}
    (hcl : cl.all resWF = true) :
    ∃ ds, removedResourceDrifts now t cl r = .ok ds ∧ ∀ d ∈ ds, d.resource_id = rv := by
  obtain ⟨s, hro', hgr, _⟩ := resWF_spec hr
  have hrv : rv = .str s := by
    rw [hro] at hro'
    exact (Option.some.injEq _ _).mp hro'.symm |>.symm
  subst hrv
  refine ⟨if cl.any (fun p => decide (ridOf p = some (Value.str s))) then []
      else [⟨.str s, some t, some true,
            some [⟨"resource", some r, none, "removed"⟩], some now, none⟩], ?_, ?_⟩
  · simp only [removedResourceDrifts, hgr, ok_bind, anyById_eq _ cl hcl]
    cases cl.any (fun p => decide (ridOf p = some (Value.str s))) <;> rfl
  · intro d hd
    rcases hb : cl.any (fun p => decide (ridOf p = some (Value.str s))) with _ | _ <;>
      rw [hb] at hd <;> simp at hd
    simp [hd]

theorem removedPassBucket_filter (now t : String) (rid0 : Value) :
    ∀ (rs cl : List Value), rs.all resWF = true → cl.all resWF = true →
    (∀ p ∈ rs, ridOf p ≠ some rid0) →
    ∃ ds, removedPassBucket now t cl rs = .ok ds
      ∧ ds.filter (fun d => decide (d.resource_id = rid0)) = [] := by
  intro rs
  induction rs with
  | nil => intro cl _ _ _; exact ⟨[], rfl, rfl⟩
  | cons r rest ih =>
      intro cl hall hcl hnorid
      have hr : resWF r = true := (List.all_eq_true.mp hall) r (by simp)
      have hrest : rest.all resWF = true :=
        List.all_eq_true.mpr (fun x hx => (List.all_eq_true.mp hall) x (by simp [hx]))
      obtain ⟨s, hro, _, _⟩ := resWF_spec hr
      obtain ⟨ds₀, h0, hid⟩ := removedResourceDrifts_spec now t hro hr hcl
      obtain ⟨ds₁, h1, hfil⟩ := ih cl hrest hcl (fun p hp => hnorid p (by simp [hp]))
      refine ⟨ds₀ ++ ds₁, ?_, ?_⟩
      · simp [removedPassBucket, h0, h1, ok_bind, pure_ok]
      · rw [List.filter_append, hfil]
        have hds₀ : ds₀.filter (fun d => decide (d.resource_id = rid0)) = [] := by
          refine List.filter_eq_nil_iff.mpr ?_
          intro d hd
          have hd' := hid d hd
          simp only [hd', decide_eq_true_eq]
          intro he
          apply hnorid r (by simp)
          rw [hro, he]
        rw [hds₀]
        rfl

theorem removedPass_filter (now : String) (rid0 : Value) :
    ∀ (pss curRes : List (String × List Value)),
    bucketsWF pss = true → bucketsWF curRes = true → noRidIn rid0 pss →
    ∃ ds, removedPass now curRes pss = .ok ds
      ∧ ds.filter (fun d => decide (d.resource_id = rid0)) = [] := by
  intro pss
  induction pss with
  | nil => intro curRes _ _ _; exact ⟨[], rfl, rfl⟩
  | cons hd rest ih =>
      intro curRes hall hcur hnorid
      obtain ⟨t, rs⟩ := hd
      have hrs : rs.all resWF = true := bucketsWF_mem hall (List.mem_cons_self _ _)
      have hrest : bucketsWF rest = true := by
        refine List.all_eq_true.mpr (fun x hx => (List.all_eq_true.mp hall) x ?_)
        simp [hx]
      have hnorid0 : ∀ p ∈ rs, ridOf p ≠ some rid0 := by
        intro p hp
        exact hnorid (t, rs) (by simp) p hp
      have hnorid1 : noRidIn rid0 rest := by
        intro tb htb p hp
        exact hnorid tb (by simp [htb]) p hp
      obtain ⟨ds₀, h0, hfil0⟩ := removedPassBucket_filter now t rid0 rs
        ((lookupBucket curRes t).getD []) hrs (prevList_wf hcur t) hnorid0
      obtain ⟨ds₁, h1, hfil1⟩ := ih curRes hrest hcur hnorid1
      refine ⟨ds₀ ++ ds₁, ?_, ?_⟩
      · simp [removedPass, h0, h1, ok_bind, pure_ok]
      · rw [List.filter_append, hfil0, hfil1]
        rfl

/-- C6 (amended): an added resource — present in the current snapshot with
no same-type id match in the previous one — contributes exactly one
ResourceDrift, the synthesized Added record whose single change has the
whole resource as `new_value`, *provided its id occurs nowhere else*: not
on another current resource and on no previous resource.  (The
counterexample shows the proviso is needed: an occurrence of the id under
a different resource type in the previous snapshot adds a second, Removed,
ResourceDrift with the same resource id; a second current occurrence would
likewise add a second Added one.)  Snapshots are well-formed: every
resource is a dict whose `id` is a string with at least seven
`/`-separated parts. -/
theorem snapshot_drift_added_unique_amended
    (now : String) (cur prev : SnapshotIn) (t : String) (r : Value) (rid0 : Value)
    (bs₁ bs₂ : List (String × List Value)) (rs₁ rs₂ : List Value)
    (hshape : cur.resources = bs₁ ++ (t, rs₁ ++ r :: rs₂) :: bs₂)
    (hcur : snapWF cur = true) (hprev : snapWF prev = true)
    (hrid : ridOf r = some rid0)
    (h₁ : ∀ x ∈ rs₁ ++ rs₂, ridOf x ≠ some rid0)
    (h₂ : noRidIn rid0 bs₁) (h₃ : noRidIn rid0 bs₂)
    (habs : noRidIn rid0 prev.resources) :
    ∃ ds, computeDrifts now cur prev = .ok ds
      ∧ ds.filter (fun d => decide (d.resource_id = rid0)) = [addedFor now rid0 t r] := by
  have hcurb : bucketsWF cur.resources = true := hcur
  have hprevb : bucketsWF prev.resources = true := hprev
  obtain ⟨dsA, hA, hfilA⟩ := curPass_filter now rid0 cur.resources prev.resources
    hcurb hprevb habs
  obtain ⟨dsB, hB, hfilB⟩ := removedPass_filter now rid0 prev.resources cur.resources
    hprevb hcurb habs
  refine ⟨dsA ++ dsB, ?_, ?_⟩
  · simp [computeDrifts, hA, hB, ok_bind, pure_ok]
  · rw [List.filter_append, hfilA, hfilB, List.append_nil]
    rw [hshape]
    rw [List.map_append, List.flatten_append]
    have hbs₁ : ∀ tb ∈ bs₁, (tb.2.filter (fun x => decide (ridOf x = some rid0))).map
        (addedFor now rid0 tb.1) = ([] : List ResourceDriftOut) := by
      intro tb htb
      have : tb.2.filter (fun x => decide (ridOf x = some rid0)) = [] := by
        refine List.filter_eq_nil_iff.mpr ?_
        intro x hx
        simpa using h₂ tb htb x hx
      simp [this]
    have hbs₂ : ∀ tb ∈ bs₂, (tb.2.filter (fun x => decide (ridOf x = some rid0))).map
        (addedFor now rid0 tb.1) = ([] : List ResourceDriftOut) := by
      intro tb htb
      have : tb.2.filter (fun x => decide (ridOf x = some rid0)) = [] := by
        refine List.filter_eq_nil_iff.mpr ?_
        intro x hx
        simpa using h₃ tb htb x hx
      simp [this]
    have hflat₁ : (bs₁.map (fun tb => (tb.2.filter (fun x => decide (ridOf x = some rid0))).map
        (addedFor now rid0 tb.1))).flatten = ([] : List ResourceDriftOut) := by
      refine List.flatten_eq_nil_iff.mpr ?_
      intro l hl
      obtain ⟨tb, htb, rfl⟩ := List.mem_map.mp hl
      exact hbs₁ tb htb
    have hflat₂ : (bs₂.map (fun tb => (tb.2.filter (fun x => decide (ridOf x = some rid0))).map
        (addedFor now rid0 tb.1))).flatten = ([] : List ResourceDriftOut) := by
      refine List.flatten_eq_nil_iff.mpr ?_
      intro l hl
      obtain ⟨tb, htb, rfl⟩ := List.mem_map.mp hl
      exact hbs₂ tb htb
    have hmid : (rs₁ ++ r :: rs₂).filter (fun x => decide (ridOf x = some rid0)) = [r] := by
      rw [List.filter_append, List.filter_cons]
      have hl : rs₁.filter (fun x => decide (ridOf x = some rid0)) = [] := by
        refine List.filter_eq_nil_iff.mpr ?_
        intro x hx
        simpa using h₁ x (by simp [hx])
      have hr2 : rs₂.filter (fun x => decide (ridOf x = some rid0)) = [] := by
        refine List.filter_eq_nil_iff.mpr ?_
        intro x hx
        simpa using h₁ x (by simp [hx])
      rw [hl, hr2, if_pos (by simp [hrid])]
      rfl
    rw [hflat₁]
    simp only [List.map_cons, List.flatten_cons, hmid, hflat₂]
    simp [addedFor]

/-- Witness for the amended C6: one current resource of type `vm`, absent
from the previous snapshot, yields exactly the one Added ResourceDrift. -/
theorem snapshot_drift_added_unique_amended_witness :
    ∃ ds, computeDrifts "T0" ⟨.str "B", [("vm", [c6X])]⟩ ⟨.str "A", [("vm", [])]⟩ = .ok ds
      ∧ ds.filter (fun d => decide (d.resource_id = .str "/s/a/b/c/d/e/x"))
          = [addedFor "T0" (.str "/s/a/b/c/d/e/x") "vm" c6X] := by
  exact snapshot_drift_added_unique_amended "T0" ⟨.str "B", [("vm", [c6X])]⟩
    ⟨.str "A", [("vm", [])]⟩ "vm" c6X (.str "/s/a/b/c/d/e/x") [] [] [] []
    rfl (by decide) (by decide) (by decide) (by simp)
    (by intro tb htb p hp; simp at htb) (by intro tb htb p hp; simp at htb)
    (by intro tb htb p hp; simp at htb; subst htb; simp at hp)

end Drift
